import Mathlib

/-!
Verification of the execution core of `pystackql` (StackQL Python wrapper).

The repository snapshot at hand carries documentation, changelogs, fixtures and
CI configuration; the Python package sources themselves are absent.  Every
definition below is therefore modelled from the specification (spec.md) of the
execution core: configuration resolution, the local-process backend, embedded
error detection, output normalization, and the async batch executor.  The
fixtures under the repository (aws-auth and csv-output fixtures) are used as
concrete instances.
-/

namespace PyStackQL

/-- Character-list view of textual data used throughout the embedding. -/
abbrev Chars := List Char

/-- Modelled from the spec: substring containment used by exact error patterns
(spec 4.4, "a RawOutput whose text contains an exact-match needle"); true when
`needle` occurs contiguously inside `text`. -/
def containsSub (needle text : Chars) : Bool :=
  text.tails.any (fun t => needle.isPrefixOf t)

/-- Modelled from the spec: a small total regular-expression language standing
for the `regex` error-pattern variant of spec 4.4 (the missing Python source's
regex patterns). -/
inductive Regex where
  | fail : Regex
  | eps : Regex
  | chr : Char → Regex
  | alt : Regex → Regex → Regex
  | cat : Regex → Regex → Regex
  | star : Regex → Regex
deriving DecidableEq

/-- Whether a regular expression accepts the empty word. -/
def Regex.nullable : Regex → Bool
  | .fail => false
  | .eps => true
  | .chr _ => false
  | .alt a b => a.nullable || b.nullable
  | .cat a b => a.nullable && b.nullable
  | .star _ => true

/-- Brzozowski derivative of a regular expression by one character. -/
def Regex.deriv : Regex → Char → Regex
  | .fail, _ => .fail
  | .eps, _ => .fail
  | .chr c, d => if c = d then .eps else .fail
  | .alt a b, d => .alt (a.deriv d) (b.deriv d)
  | .cat a b, d =>
      if a.nullable then .alt (.cat (a.deriv d) b) (b.deriv d)
      else .cat (a.deriv d) b
  | .star a, d => .cat (a.deriv d) (.star a)

/-- Full-word acceptance via iterated derivatives. -/
def Regex.accepts (r : Regex) : Chars → Bool
  | [] => r.nullable
  | c :: cs => (r.deriv c).accepts cs

/-- Modelled from the spec: regex error patterns are matched by searching the
raw text (any substring may match), mirroring search-style matching of the
missing error classifier. -/
def Regex.found (r : Regex) (text : Chars) : Bool :=
  text.tails.any (fun t => t.inits.any (fun p => r.accepts p))

/-- Longest-common-subsequence length, driven by a fuel argument that makes
the recursion structural; the fuel `a.length + b.length` supplied by `lcsLen`
always suffices, so this computes the exact LCS length. -/
def lcsLenAux : Nat → Chars → Chars → Nat
  | 0, _, _ => 0
  | _ + 1, [], _ => 0
  | _ + 1, _, [] => 0
  | fuel + 1, a :: as, b :: bs =>
      if a = b then lcsLenAux fuel as bs + 1
      else max (lcsLenAux fuel (a :: as) bs) (lcsLenAux fuel as (b :: bs))

/-- Length of a longest common subsequence, the basis of the fuzzy
similarity score. -/
def lcsLen (a b : Chars) : Nat := lcsLenAux (a.length + b.length) a b

/-- Modelled from the spec: fuzzy matching "uses a similarity threshold
against the needle, not a substring check" (spec 4.4).  The score is a
percentage similarity between needle and text derived from a longest common
subsequence (identical strings score 100). -/
def simScore (a b : Chars) : Nat :=
  if a.length + b.length = 0 then 100
  else (200 * lcsLen a b) / (a.length + b.length)

/-- Modelled from the spec: the three error-pattern variants of spec 3
(`fuzzy`/`exact`/`regex`). -/
inductive PatKind where
  | exact : PatKind
  | regex : PatKind
  | fuzzy : PatKind
deriving DecidableEq, BEq

/-- Modelled from the spec: one configured error pattern (spec 3): a variant
kind, the needle (used by exact and fuzzy variants), a regex (used by the
regex variant), a similarity threshold in percent (fuzzy variant), and the
error category label. -/
structure ErrorPattern where
  kind : PatKind
  needle : Chars
  rx : Regex
  threshold : Nat
  category : String
deriving DecidableEq

/-- Modelled from the spec: whether one error pattern matches the raw text
(spec 4.4): exact is substring containment, regex is a search, fuzzy compares
the similarity score against the pattern threshold. -/
def patMatches (p : ErrorPattern) (text : Chars) : Bool :=
  match p.kind with
  | .exact => containsSub p.needle text
  | .regex => p.rx.found text
  | .fuzzy => p.threshold ≤ simScore p.needle text

/-- Modelled from the spec: raw backend output (spec 3): text payload, an exit
indicator (process exit code 0 maps to `exitOk = true`; server mode maps
protocol success to it), and the captured stderr/diagnostic channel. -/
structure RawOutput where
  text : String
  exitOk : Bool
  diag : String
deriving DecidableEq

/-- Modelled from the spec: the discriminated execution result (spec 3):
either a success payload or an error payload carrying message and category;
a total function into this type can never yield null/absent. -/
inductive ExecutionResult where
  | success (payload : String)
  | err (message : String) (category : String)
deriving DecidableEq

/-- Modelled from the spec: the fixed evaluation precedence of spec 4.4 —
exact patterns first, then regex patterns, then fuzzy patterns, keeping
registration order inside each tier. -/
def tiered (ps : List ErrorPattern) : List ErrorPattern :=
  ps.filter (fun p => p.kind == .exact) ++
  ps.filter (fun p => p.kind == .regex) ++
  ps.filter (fun p => p.kind == .fuzzy)

/-- First matching pattern in the given order, if any. -/
def firstMatch (ps : List ErrorPattern) (text : Chars) : Option ErrorPattern :=
  ps.find? (fun p => patMatches p text)

/-- Modelled from the spec: the error detector of spec 4.4.  The first
matching pattern in precedence order decides the error category; with no
match, backend success yields the success payload and backend failure yields
an "unclassified" error carrying the diagnostic text verbatim. -/
def detect (ps : List ErrorPattern) (raw : RawOutput) : ExecutionResult :=
  match firstMatch (tiered ps) raw.text.data with
  | some p => .err raw.text p.category
  | none => if raw.exitOk then .success raw.text else .err raw.diag "unclassified"

/-! ## Authentication input and the local argument vector (spec 6, fixtures) -/

/-- Modelled from the spec: one provider credential descriptor — a mapping of
descriptor keys to values (e.g. `type`, `credentialsenvvar`), as in the
aws-auth fixtures. -/
structure AuthDescriptor where
  entries : List (String × String)
deriving DecidableEq

/-- Modelled from the spec: the authentication block — a mapping of provider
name to credential descriptor (spec 3). -/
structure AuthBlock where
  providers : List (String × AuthDescriptor)
deriving DecidableEq

/-- JSON string quoting used when serializing auth blocks (keys and values of
the modelled fragment carry no characters needing escapes). -/
def quoteJson (s : String) : String := "\"" ++ s ++ "\""

/-- Serialize one credential descriptor as a JSON object. -/
def serializeDescriptor (d : AuthDescriptor) : String :=
  "\x7b" ++
    String.intercalate ", "
      (d.entries.map (fun kv => quoteJson kv.1 ++ ": " ++ quoteJson kv.2)) ++
  "\x7d"

/-- Modelled from the spec: stringification of an auth block as the JSON
object handed to the `--auth` flag (aws-auth fixtures). -/
def serializeAuthBlock (a : AuthBlock) : String :=
  "\x7b" ++
    String.intercalate ", "
      (a.providers.map (fun kv => quoteJson kv.1 ++ ": " ++ serializeDescriptor kv.2)) ++
  "\x7d"

/-- Modelled from the spec: the `auth` constructor argument accepts either a
dict or an equivalent stringified JSON object (docs, Authentication
Overview). -/
inductive AuthInput where
  | asDict (a : AuthBlock)
  | asStr (s : String)
deriving DecidableEq

/-- The auth argument text passed on the command line: dicts are serialized,
strings are passed through verbatim. -/
def authArgText : AuthInput → String
  | .asDict a => serializeAuthBlock a
  | .asStr s => s

/-- Modelled from the spec: the deterministic local argument vector (spec 4.2
and 6, aws-auth fixture `params`): command verb `exec` first, then the query
text, then flag/value pairs, ending with `--output <format>`. -/
def buildLocalArgs (query : String) (auth : Option AuthInput)
    (flags : List (String × String)) (fmt : String) : List String :=
  "exec" :: query ::
    ((match auth with
      | none => []
      | some a => ["--auth", authArgText a]) ++
     (flags.map (fun kv => ["--" ++ kv.1, kv.2])).flatten ++
     ["--output", fmt])

/-! ## Execution configuration and the configuration resolver (spec 3, 4.1) -/

/-- Modelled from the spec: backend mode — local subprocess or server
connection (spec 3). -/
inductive Mode where
  | localProc : Mode
  | server : Mode
deriving DecidableEq

/-- Modelled from the spec: the supported output formats of the output
normalizer (spec 4.5). -/
inductive OutputFormat where
  | dict : OutputFormat
  | csv : OutputFormat
  | table : OutputFormat
  | markdownkv : OutputFormat
  | pandas : OutputFormat
deriving DecidableEq

/-- Modelled from the spec: proxy settings group of the execution
configuration (spec 3). -/
structure ProxySettings where
  host : String
  port : Int
  scheme : String
deriving DecidableEq

/-- Modelled from the spec: the per-call execution configuration (spec 3):
backend mode, binary/connection location, output format, CSV formatting
options, auth block, registry override, pagination and depth limits, timeout,
proxy settings, concurrency limit, HTTP debug flag, and backend storage
mode/location. -/
structure ExecutionConfig where
  mode : Mode
  location : String
  outputFormat : OutputFormat
  sep : String
  header : Bool
  auth : Option AuthInput
  customRegistry : Option String
  maxResults : Int
  pageLimit : Int
  maxDepth : Int
  apiTimeout : Int
  proxy : Option ProxySettings
  executionConcurrencyLimit : Int
  httpDebug : Bool
  backendStorageMode : Option String
  backendFileStorageLocation : Option String
deriving DecidableEq

/-- Modelled from the spec: the call-time partial override structure (spec 3
and 4.1; docs, Overriding Parameters per Query): a key is overridden exactly
when the corresponding field is `some`.  The output format arrives as its
raw string so that unknown formats can be rejected. -/
structure Overrides where
  mode : Option Mode := none
  location : Option String := none
  output : Option String := none
  sep : Option String := none
  header : Option Bool := none
  auth : Option AuthInput := none
  customRegistry : Option String := none
  maxResults : Option Int := none
  pageLimit : Option Int := none
  maxDepth : Option Int := none
  apiTimeout : Option Int := none
  proxy : Option ProxySettings := none
  executionConcurrencyLimit : Option Int := none
  httpDebug : Option Bool := none
  backendStorageMode : Option String := none
  backendFileStorageLocation : Option String := none
deriving DecidableEq

/-- The all-absent override set (no key supplied). -/
def emptyOverrides : Overrides := {}

/-- Merge for optional base fields: a supplied override value replaces the
base value, an absent one keeps it. -/
def overrideOpt {α : Type} (o : Option α) (b : Option α) : Option α :=
  match o with
  | some v => some v
  | none => b

/-- Modelled from the spec: configuration failure detected before dispatch
(spec 7). -/
structure ConfigError where
  msg : String
deriving DecidableEq

/-- Parse an output-format string; unknown strings are outside the declared
domain (spec 4.1). -/
def parseFormat : String → Option OutputFormat
  | "dict" => some .dict
  | "csv" => some .csv
  | "table" => some .table
  | "markdownkv" => some .markdownkv
  | "pandas" => some .pandas
  | _ => none

/-- Resolve the effective output format from base and override. -/
def resolvedFormat (base : ExecutionConfig) (ov : Overrides) :
    Except ConfigError OutputFormat :=
  match ov.output with
  | none => .ok base.outputFormat
  | some s =>
      match parseFormat s with
      | some f => .ok f
      | none => .error ⟨"unknown output format: " ++ s⟩

/-- The merged configuration record: each field takes the override value when
supplied and the base value otherwise. -/
def mergedConfig (base : ExecutionConfig) (ov : Overrides)
    (fmt : OutputFormat) : ExecutionConfig :=
  { mode := ov.mode.getD base.mode
    location := ov.location.getD base.location
    outputFormat := fmt
    sep := ov.sep.getD base.sep
    header := ov.header.getD base.header
    auth := overrideOpt ov.auth base.auth
    customRegistry := overrideOpt ov.customRegistry base.customRegistry
    maxResults := ov.maxResults.getD base.maxResults
    pageLimit := ov.pageLimit.getD base.pageLimit
    maxDepth := ov.maxDepth.getD base.maxDepth
    apiTimeout := ov.apiTimeout.getD base.apiTimeout
    proxy := overrideOpt ov.proxy base.proxy
    executionConcurrencyLimit :=
      ov.executionConcurrencyLimit.getD base.executionConcurrencyLimit
    httpDebug := ov.httpDebug.getD base.httpDebug
    backendStorageMode :=
      overrideOpt ov.backendStorageMode base.backendStorageMode
    backendFileStorageLocation :=
      overrideOpt ov.backendFileStorageLocation base.backendFileStorageLocation }

/-- Modelled from the spec: the configuration resolver (spec 4.1).  Only keys
present in the overrides replace the corresponding base field; override
values outside their domain (unknown output format, negative timeout,
negative concurrency limit) fail with `ConfigError`; the result is a fresh
value and the base is left untouched. -/
def resolve (base : ExecutionConfig) (ov : Overrides) :
    Except ConfigError ExecutionConfig :=
  match resolvedFormat base ov with
  | .error e => .error e
  | .ok fmt =>
      if ov.apiTimeout.any (fun t => decide (t < 0)) then
        .error ⟨"negative timeout"⟩
      else if ov.executionConcurrencyLimit.any (fun c => decide (c < 0)) then
        .error ⟨"negative concurrency limit"⟩
      else
        .ok (mergedConfig base ov fmt)

/-! ## Single-call path and the async batch executor (spec 4.6, 6, 7) -/

/-- Modelled from the spec: one batch entry — query text, a
statement-vs-query discriminator, and a per-call override set (spec 3). -/
structure QueryRequest where
  query : String
  isStatement : Bool
  overrides : Overrides
deriving DecidableEq

/-- Modelled from the spec: one caller-facing call (spec 6): resolve the
per-call configuration against the session configuration, run the backend,
classify, and hand back the session configuration unchanged — per-call
overrides never mutate the session defaults (spec 4.1, docs note under
Overriding Parameters per Query). -/
def executeCall (sess : ExecutionConfig) (ps : List ErrorPattern)
    (backend : ExecutionConfig → String → RawOutput) (q : String)
    (ov : Overrides) : Except ConfigError ExecutionResult × ExecutionConfig :=
  match resolve sess ov with
  | .error e => (.error e, sess)
  | .ok c => (.ok (detect ps (backend c q)), sess)

/-- Modelled from the spec: the async batch executor `runBatch`
(`executeQueriesAsync`, spec 4.6).  A non-positive concurrency limit fails
with `ConfigError` before any request is dispatched; otherwise every request
is scheduled onto the single-query path `exec` (which captures any error of
that request as an error-variant result at its own index), and results are
collected in request order. -/
def runBatch (exec : QueryRequest → ExecutionResult) (limit : Int)
    (reqs : List QueryRequest) : Except ConfigError (List ExecutionResult) :=
  if limit ≤ 0 then .error ⟨"execution concurrency limit must be positive"⟩
  else .ok (reqs.map exec)

/-! ## Local process backend (spec 4.2) -/

/-- Modelled from the spec: the observable behaviour of one child process of
the local backend — how long it runs before exiting on its own, its full
stdout, the part of stdout captured if it is cut off early, its diagnostic
(stderr) text and its exit indicator. -/
structure ChildProc where
  duration : Nat
  fullOut : String
  partOut : String
  diagOut : String
  exitOk : Bool
deriving DecidableEq

/-- Modelled from the spec: failures of the local backend (spec 4.2, 7):
a timeout (carrying the stdout captured so far, and whether the child was
terminated) or a launch failure. -/
inductive LocalFailure where
  | timeoutExpired (partOut : String) (childTerminated : Bool)
  | launchFailure (msg : String)
deriving DecidableEq

/-- Modelled from the spec: `runLocal` (spec 4.2).  The call blocks until the
child exits or the time limit elapses; completion is observed strictly before
the deadline, so a zero limit elapses immediately.  On timeout the child is
terminated and the failure carries the partial stdout captured so far. -/
def runLocal (p : ChildProc) (timeLimit : Nat) : Except LocalFailure RawOutput :=
  if p.duration < timeLimit then .ok ⟨p.fullOut, p.exitOk, p.diagOut⟩
  else .error (.timeoutExpired p.partOut true)

/-- Modelled from the spec: a batch of local-backend runs, each request with
its own child process and time limit; requests are independent (spec 5,
no cross-request cancellation). -/
def runLocalBatch (procs : List (ChildProc × Nat)) :
    List (Except LocalFailure RawOutput) :=
  procs.map (fun pt => runLocal pt.1 pt.2)

/-! ## Bounded-concurrency scheduler (spec 4.6, 5) -/

/-- Per-request scheduling status inside one batch. -/
inductive ReqStatus where
  | waiting : ReqStatus
  | running : ReqStatus
  | done : ReqStatus
deriving DecidableEq, BEq

/-- Whether a request status is the running state. -/
def isRunning : ReqStatus → Bool
  | .running => true
  | _ => false

/-- Number of requests currently executing. -/
def countRunning (s : List ReqStatus) : Nat :=
  s.countP isRunning

/-- Modelled from the spec: one scheduling transition of the semaphore-like
admission gate sized to the concurrency limit `k` (spec 5): a waiting request
may start only while fewer than `k` requests are running; a running request
may finish at any time. -/
inductive BatchStep (k : Nat) : List ReqStatus → List ReqStatus → Prop where
  | start (s : List ReqStatus) (i : Nat) (h : i < s.length)
      (hw : s[i] = ReqStatus.waiting) (hk : countRunning s < k) :
      BatchStep k s (s.set i .running)
  | finish (s : List ReqStatus) (i : Nat) (h : i < s.length)
      (hr : s[i] = ReqStatus.running) :
      BatchStep k s (s.set i .done)

/-- States reachable by the scheduler of a batch of `n` requests under
concurrency limit `k`, starting from all requests waiting. -/
def BatchReachable (k n : Nat) (s : List ReqStatus) : Prop :=
  Relation.ReflTransGen (BatchStep k) (List.replicate n .waiting) s

/-! ## Output normalizer: CSV encoding and parsing (spec 4.5) -/

/-- Modelled from the spec: scalar cell values of the canonical row
representation; encoding stringifies them (spec 4.5, round-trip "up to
type-stringification of scalar values"). -/
inductive Scalar where
  | strV (s : String)
  | intV (n : Int)
  | boolV (b : Bool)
  | nullV : Scalar
deriving DecidableEq

/-- String form of a scalar value, as it appears in textual output. -/
def Scalar.render : Scalar → Chars
  | .strV s => s.data
  | .intV n => (toString n).data
  | .boolV true => "true".data
  | .boolV false => "false".data
  | .nullV => "null".data

/-- Join character lists with a separator character between consecutive
entries. -/
def joinSep (sep : Char) : List Chars → Chars
  | [] => []
  | [x] => x
  | x :: y :: ys => x ++ sep :: joinSep sep (y :: ys)

/-- Whether a cell value needs CSV quoting: it is empty or contains the
separator, a newline, or a double quote. -/
def needsQuote (sep : Char) (cell : Chars) : Bool :=
  cell.isEmpty || cell.any (fun ch => ch = sep || ch = '\n' || ch = '"')

/-- Escape the body of a quoted CSV cell by doubling every double quote. -/
def escQuotes : Chars → Chars
  | [] => []
  | c :: r => if c = '"' then '"' :: '"' :: escQuotes r else c :: escQuotes r

/-- Modelled from the spec: one CSV cell as the writer emits it — quoted
(with inner quotes doubled) exactly when the value is empty or contains the
separator, a newline or a quote; plain otherwise, as in the csv fixture
(minimal quoting, the convention of standard CSV writers). -/
def encodeCell (sep : Char) (cell : Chars) : Chars :=
  if needsQuote sep cell then '"' :: (escQuotes cell ++ ['"']) else cell

/-- One CSV line: the encoded cells of a row joined by the separator. -/
def encodeRow (sep : Char) (row : List Chars) : Chars :=
  joinSep sep (row.map (encodeCell sep))

/-- Modelled from the spec: CSV encoding with a header row (spec 4.5, csv
fixture): the header line followed by one line per row, cells quoted when
needed so that separator, newline and quote characters inside values survive
the round trip, lines joined by newlines. -/
def csvEncode (sep : Char) (header : List Chars) (rows : List (List Scalar)) :
    Chars :=
  joinSep '\n'
    ((header :: rows.map (fun r => r.map Scalar.render)).map (encodeRow sep))

/-- Close the line being accumulated by the CSV scanner: a line on which no
cell was started decodes as the empty row, otherwise the accumulated cells
are emitted in order. -/
def emitRow (started : Bool) (cell : Chars) (row : List Chars) : List Chars :=
  if started = false ∧ row = [] then [] else (cell.reverse :: row).reverse

/-- Modelled from the spec: the CSV reader as a character scanner (spec 4.5).
State: remaining input, whether the scanner is inside a quoted cell, whether
the current cell has started, the current cell (reversed), the current row's
finished cells (reversed), and the finished rows (reversed).  Inside quotes a
doubled quote is a literal quote and a single quote closes the cell;
outside quotes the separator ends a cell and a newline ends a row. -/
def csvScan (sep : Char) :
    Chars → Bool → Bool → Chars → List Chars → List (List Chars) →
      List (List Chars)
  | [], _, started, cell, row, rows =>
      (emitRow started cell row :: rows).reverse
  | c :: rest, true, started, cell, row, rows =>
      if c = '"' then
        match rest with
        | d :: rest2 =>
            if d = '"' then csvScan sep rest2 true started ('"' :: cell) row rows
            else csvScan sep (d :: rest2) false started cell row rows
        | [] => csvScan sep [] false started cell row rows
      else csvScan sep rest true started (c :: cell) row rows
  | c :: rest, false, started, cell, row, rows =>
      if c = '"' then csvScan sep rest true true cell row rows
      else if c = sep then
        csvScan sep rest false false [] (cell.reverse :: row) rows
      else if c = '\n' then
        csvScan sep rest false false [] [] (emitRow started cell row :: rows)
      else csvScan sep rest false true (c :: cell) row rows

/-- Modelled from the spec: CSV parsing with a header row (spec 4.5): the
first parsed line gives the column names, the remaining lines the row
values. -/
def csvDecode (sep : Char) (text : Chars) : List Chars × List (List Chars) :=
  match csvScan sep text false false [] [] [] with
  | [] => ([], [])
  | h :: rs => (h, rs)

/-! ## Helper lemmas about the error detector -/

/-- A list search returns the marked element when everything before it fails
the predicate and it passes. -/
theorem find?_of_first {α : Type} (f : α → Bool) {pre post : List α} {p : α}
    (hm : f p = true) (hpre : ∀ q ∈ pre, f q = false) :
    (pre ++ p :: post).find? f = some p := by
  rw [List.find?_append]
  have h1 : pre.find? f = none :=
    List.find?_eq_none.mpr (fun x hx => by simp [hpre x hx])
  rw [h1, List.find?_cons_of_pos _ hm]
  rfl

/-- Membership in the tier-ordered pattern list is membership in the
registered set. -/
theorem mem_of_mem_tiered {ps : List ErrorPattern} {q : ErrorPattern}
    (hq : q ∈ tiered ps) : q ∈ ps := by
  simp only [tiered, List.mem_append, List.mem_filter] at hq
  rcases hq with (⟨h, _⟩ | ⟨h, _⟩) | ⟨h, _⟩ <;> exact h

/-- When no registered pattern matches, the tier-ordered search finds
nothing. -/
theorem firstMatch_eq_none {ps : List ErrorPattern} {text : Chars}
    (h : ∀ p ∈ ps, patMatches p text = false) :
    firstMatch (tiered ps) text = none := by
  apply List.find?_eq_none.mpr
  intro q hq
  simp [h q (mem_of_mem_tiered hq)]

/-- An exact pattern of the registered set sits in the tier-ordered list. -/
theorem exact_mem_tiered {ps : List ErrorPattern} {p : ErrorPattern}
    (hp : p ∈ ps) (hk : p.kind = .exact) : p ∈ tiered ps := by
  simp only [tiered, List.mem_append, List.mem_filter]
  exact Or.inl (Or.inl ⟨hp, by rw [hk]; rfl⟩)

/-! ## Helper lemmas about CSV splitting and joining -/

theorem joinSep_cons_cons (sep : Char) (x y : Chars) (ys : List Chars) :
    joinSep sep (x :: y :: ys) = x ++ sep :: joinSep sep (y :: ys) := rfl

/-- Scanner step: end of input closes the pending line. -/
theorem csvScan_nil (sep : Char) (inQ started : Bool) (cell : Chars)
    (row : List Chars) (rows : List (List Chars)) :
    csvScan sep [] inQ started cell row rows =
      (emitRow started cell row :: rows).reverse := by
  cases inQ <;> rfl

/-- Scanner step: inside quotes, a doubled quote is a literal quote. -/
theorem csvScan_quote_escaped (sep : Char) (rest : Chars) (started : Bool)
    (cell : Chars) (row : List Chars) (rows : List (List Chars)) :
    csvScan sep ('"' :: '"' :: rest) true started cell row rows =
      csvScan sep rest true started ('"' :: cell) row rows := by
  simp [csvScan]

/-- Scanner step: inside quotes, a quote followed by a non-quote closes the
cell without consuming the follower. -/
theorem csvScan_quote_close {d : Char} (sep : Char) (hd : d ≠ '"')
    (rest : Chars) (started : Bool) (cell : Chars) (row : List Chars)
    (rows : List (List Chars)) :
    csvScan sep ('"' :: d :: rest) true started cell row rows =
      csvScan sep (d :: rest) false started cell row rows := by
  simp [csvScan, hd]

/-- Scanner step: inside quotes, a quote at the end of input closes the
cell. -/
theorem csvScan_quote_close_end (sep : Char) (started : Bool) (cell : Chars)
    (row : List Chars) (rows : List (List Chars)) :
    csvScan sep ['"'] true started cell row rows =
      csvScan sep [] false started cell row rows := by
  simp [csvScan]

/-- Scanner step: inside quotes, an ordinary character joins the cell. -/
theorem csvScan_quoted_char {c : Char} (sep : Char) (hc : c ≠ '"')
    (rest : Chars) (started : Bool) (cell : Chars) (row : List Chars)
    (rows : List (List Chars)) :
    csvScan sep (c :: rest) true started cell row rows =
      csvScan sep rest true started (c :: cell) row rows := by
  cases rest <;> simp [csvScan, hc]

/-- Scanner step: outside quotes, a quote opens a quoted cell. -/
theorem csvScan_open_quote (sep : Char) (rest : Chars) (started : Bool)
    (cell : Chars) (row : List Chars) (rows : List (List Chars)) :
    csvScan sep ('"' :: rest) false started cell row rows =
      csvScan sep rest true true cell row rows := by
  simp [csvScan]

/-- Scanner step: outside quotes, the separator finishes the cell. -/
theorem csvScan_sep_char (sep : Char) (hq : sep ≠ '"') (rest : Chars)
    (started : Bool) (cell : Chars) (row : List Chars)
    (rows : List (List Chars)) :
    csvScan sep (sep :: rest) false started cell row rows =
      csvScan sep rest false false [] (cell.reverse :: row) rows := by
  simp [csvScan, hq]

/-- Scanner step: outside quotes, a newline finishes the line. -/
theorem csvScan_newline (sep : Char) (hn : sep ≠ '\n') (rest : Chars)
    (started : Bool) (cell : Chars) (row : List Chars)
    (rows : List (List Chars)) :
    csvScan sep ('\n' :: rest) false started cell row rows =
      csvScan sep rest false false [] [] (emitRow started cell row :: rows) := by
  have h1 : ('\n' : Char) ≠ '"' := by decide
  have h2 : ('\n' : Char) ≠ sep := Ne.symm hn
  simp [csvScan, h1, h2]

/-- Scanner step: outside quotes, an ordinary character starts or extends
the cell. -/
theorem csvScan_plain_char {c : Char} (sep : Char) (h1 : c ≠ '"')
    (h2 : c ≠ sep) (h3 : c ≠ '\n') (rest : Chars) (started : Bool)
    (cell : Chars) (row : List Chars) (rows : List (List Chars)) :
    csvScan sep (c :: rest) false started cell row rows =
      csvScan sep rest false true (c :: cell) row rows := by
  simp [csvScan, h1, h2, h3]

/-- Scanning the escaped body of a quoted cell up to its closing quote
accumulates exactly the cell content, provided what follows the closing
quote does not begin with another quote. -/
theorem csvScan_escQuotes (sep : Char) :
    ∀ (cell rest : Chars), (∀ ds, rest ≠ '"' :: ds) →
      ∀ (st : Bool) (acc : Chars) (row : List Chars)
        (rows : List (List Chars)),
      csvScan sep (escQuotes cell ++ '"' :: rest) true st acc row rows =
        csvScan sep rest false st (cell.reverse ++ acc) row rows
  | [], rest, hrest, st, acc, row, rows => by
    cases rest with
    | nil => simpa [escQuotes] using csvScan_quote_close_end sep st acc row rows
    | cons d ds =>
      have hd : d ≠ '"' := fun h => hrest ds (by rw [h])
      simpa [escQuotes] using csvScan_quote_close sep hd ds st acc row rows
  | c :: cs, rest, hrest, st, acc, row, rows => by
    by_cases hc : c = '"'
    · subst hc
      rw [show escQuotes ('"' :: cs) = '"' :: '"' :: escQuotes cs from by
          simp [escQuotes]]
      rw [List.cons_append, List.cons_append, csvScan_quote_escaped,
        csvScan_escQuotes sep cs rest hrest st ('"' :: acc) row rows]
      simp
    · rw [show escQuotes (c :: cs) = c :: escQuotes cs from by
          simp [escQuotes, hc]]
      rw [List.cons_append, csvScan_quoted_char sep hc,
        csvScan_escQuotes sep cs rest hrest st (c :: acc) row rows]
      simp

/-- Scanning a plain (never-quoted) cell body accumulates its characters and
marks the cell started when the body is non-empty. -/
theorem csvScan_plain_cell (sep : Char) :
    ∀ (cell : Chars),
      (∀ ch ∈ cell, ch ≠ sep ∧ ch ≠ '\n' ∧ ch ≠ '"') →
      ∀ (rest : Chars) (st : Bool) (acc : Chars) (row : List Chars)
        (rows : List (List Chars)),
      csvScan sep (cell ++ rest) false st acc row rows =
        csvScan sep rest false (if cell = [] then st else true)
          (cell.reverse ++ acc) row rows
  | [], _, rest, st, acc, row, rows => by simp
  | c :: cs, hp, rest, st, acc, row, rows => by
    obtain ⟨h2, h3, h1⟩ := hp c (by simp)
    rw [List.cons_append, csvScan_plain_char sep h1 h2 h3,
      csvScan_plain_cell sep cs (fun ch hch => hp ch (by simp [hch])) rest
        true (c :: acc) row rows]
    cases cs <;> simp

/-- Scanning one encoded cell from the start of a fresh cell consumes it and
leaves the scanner at the follower (a separator, a newline, or the end of the
input), with the decoded cell accumulated. -/
theorem csvScan_encodeCell (sep : Char) (hq : sep ≠ '"') (cell rest : Chars)
    (hrest : rest = [] ∨ ∃ d ds, rest = d :: ds ∧ (d = sep ∨ d = '\n'))
    (row : List Chars) (rows : List (List Chars)) :
    csvScan sep (encodeCell sep cell ++ rest) false false [] row rows =
      csvScan sep rest false true cell.reverse row rows := by
  have hrest2 : ∀ ds, rest ≠ '"' :: ds := by
    intro ds hcontra
    rcases hrest with rfl | ⟨d, ds2, rfl, hd⟩
    · simp at hcontra
    · injection hcontra with hhd hht
      rcases hd with rfl | rfl
      · exact hq hhd
      · exact absurd hhd (by decide)
  unfold encodeCell
  by_cases hneed : needsQuote sep cell = true
  · rw [if_pos hneed, List.cons_append, List.append_assoc]
    rw [show (['"'] ++ rest : Chars) = '"' :: rest from rfl]
    rw [csvScan_open_quote,
      csvScan_escQuotes sep cell rest hrest2 true [] row rows]
    simp
  · rw [if_neg hneed]
    have hneed2 : needsQuote sep cell = false := by
      cases hb : needsQuote sep cell
      · rfl
      · exact absurd hb hneed
    unfold needsQuote at hneed2
    obtain ⟨hemp, hany⟩ := Bool.or_eq_false_iff.mp hneed2
    have hns : ∀ ch ∈ cell, ch ≠ sep ∧ ch ≠ '\n' ∧ ch ≠ '"' := by
      intro ch hch
      have h3 := List.any_eq_false.mp hany ch hch
      simp only [Bool.or_eq_true, decide_eq_true_eq, not_or] at h3
      exact ⟨h3.1.1, h3.1.2, h3.2⟩
    have hcne : cell ≠ [] := by
      intro hcontra
      subst hcontra
      simp at hemp
    rw [csvScan_plain_cell sep cell hns rest false [] row rows]
    cases cell with
    | nil => exact absurd rfl hcne
    | cons c cs => simp

/-- Scanning one encoded non-empty row terminated by a newline emits that
row (after the cells already pending) and continues on a fresh line. -/
theorem csvScan_row_newline (sep : Char) (hq : sep ≠ '"') (hn : sep ≠ '\n') :
    ∀ (cs : List Chars) (c : Chars) (rowAcc : List Chars) (rest : Chars)
      (rowsAcc : List (List Chars)),
      csvScan sep (encodeRow sep (c :: cs) ++ '\n' :: rest) false false []
          rowAcc rowsAcc =
        csvScan sep rest false false [] []
          ((rowAcc.reverse ++ c :: cs) :: rowsAcc)
  | [], c, rowAcc, rest, rowsAcc => by
    rw [show encodeRow sep [c] = encodeCell sep c from rfl]
    rw [csvScan_encodeCell sep hq c ('\n' :: rest)
      (Or.inr ⟨'\n', rest, rfl, Or.inr rfl⟩) rowAcc rowsAcc]
    rw [csvScan_newline sep hn]
    simp [emitRow]
  | c2 :: cs2, c, rowAcc, rest, rowsAcc => by
    rw [show encodeRow sep (c :: c2 :: cs2) =
        encodeCell sep c ++ sep :: encodeRow sep (c2 :: cs2) from rfl]
    rw [List.append_assoc,
      show (sep :: encodeRow sep (c2 :: cs2) ++ '\n' :: rest : Chars) =
        sep :: (encodeRow sep (c2 :: cs2) ++ '\n' :: rest) from rfl]
    rw [csvScan_encodeCell sep hq c _
      (Or.inr ⟨sep, _, rfl, Or.inl rfl⟩) rowAcc rowsAcc]
    rw [csvScan_sep_char sep hq, List.reverse_reverse]
    rw [csvScan_row_newline sep hq hn cs2 c2 (c :: rowAcc) rest rowsAcc]
    simp

/-- Scanning one encoded non-empty row at the end of the input finalizes
with that row appended. -/
theorem csvScan_row_end (sep : Char) (hq : sep ≠ '"') :
    ∀ (cs : List Chars) (c : Chars) (rowAcc : List Chars)
      (rowsAcc : List (List Chars)),
      csvScan sep (encodeRow sep (c :: cs)) false false [] rowAcc rowsAcc =
        ((rowAcc.reverse ++ c :: cs) :: rowsAcc).reverse
  | [], c, rowAcc, rowsAcc => by
    rw [show encodeRow sep [c] = encodeCell sep c from rfl,
      show (encodeCell sep c : Chars) = encodeCell sep c ++ [] from
        (List.append_nil _).symm]
    rw [csvScan_encodeCell sep hq c [] (Or.inl rfl) rowAcc rowsAcc]
    rw [csvScan_nil]
    simp [emitRow]
  | c2 :: cs2, c, rowAcc, rowsAcc => by
    rw [show encodeRow sep (c :: c2 :: cs2) =
        encodeCell sep c ++ sep :: encodeRow sep (c2 :: cs2) from rfl]
    rw [csvScan_encodeCell sep hq c _
      (Or.inr ⟨sep, _, rfl, Or.inl rfl⟩) rowAcc rowsAcc]
    rw [csvScan_sep_char sep hq, List.reverse_reverse]
    rw [csvScan_row_end sep hq cs2 c2 (c :: rowAcc) rowsAcc]
    simp

/-- Scanning the joined encoded lines of a non-empty line list from a fresh
state yields exactly those rows after the rows already finished. -/
theorem csvScan_lines (sep : Char) (hq : sep ≠ '"') (hn : sep ≠ '\n') :
    ∀ (restL : List (List Chars)) (first : List Chars)
      (rowsAcc : List (List Chars)),
      csvScan sep (joinSep '\n' ((first :: restL).map (encodeRow sep)))
          false false [] [] rowsAcc =
        rowsAcc.reverse ++ first :: restL
  | [], first, rowsAcc => by
    cases first with
    | nil =>
      show csvScan sep [] false false [] [] rowsAcc = rowsAcc.reverse ++ [[]]
      rw [csvScan_nil]
      simp [emitRow]
    | cons c cs =>
      rw [show joinSep '\n' ([(c :: cs)].map (encodeRow sep)) =
          encodeRow sep (c :: cs) from rfl]
      rw [csvScan_row_end sep hq cs c [] rowsAcc]
      simp
  | second :: restL2, first, rowsAcc => by
    cases first with
    | nil =>
      rw [show joinSep '\n' (([] :: second :: restL2 :
            List (List Chars)).map (encodeRow sep)) =
          '\n' :: joinSep '\n' ((second :: restL2).map (encodeRow sep)) from by
        simp [encodeRow, joinSep]]
      rw [csvScan_newline sep hn]
      rw [csvScan_lines sep hq hn restL2 second (emitRow false [] [] :: rowsAcc)]
      simp [emitRow]
    | cons c cs =>
      rw [show joinSep '\n' (((c :: cs) :: second :: restL2 :
            List (List Chars)).map (encodeRow sep)) =
          encodeRow sep (c :: cs) ++
            '\n' :: joinSep '\n' ((second :: restL2).map (encodeRow sep)) from by
        simp [joinSep]]
      rw [csvScan_row_newline sep hq hn cs c [] _ rowsAcc]
      simp only [List.reverse_nil, List.nil_append]
      rw [csvScan_lines sep hq hn restL2 second ((c :: cs) :: rowsAcc)]
      simp

/-! ## Helper lemmas about the bounded scheduler -/

/-- A scheduler step keeps the running count within the admission bound. -/
theorem countRunning_le_of_step {k : Nat} {s t : List ReqStatus}
    (hs : BatchStep k s t) (hinv : countRunning s ≤ k) : countRunning t ≤ k := by
  cases hs with
  | start i h hw hk =>
    unfold countRunning at hk ⊢
    rw [List.countP_set isRunning s i ReqStatus.running h, hw]
    simp [isRunning]
    omega
  | finish i h hr =>
    unfold countRunning at hinv ⊢
    rw [List.countP_set isRunning s i ReqStatus.done h, hr]
    simp [isRunning]
    omega

/-- No request runs before the batch starts. -/
theorem countRunning_replicate_waiting (n : Nat) :
    countRunning (List.replicate n .waiting) = 0 := by
  simp [countRunning, List.countP_replicate, isRunning]

/-- The running count is invariant-bounded on every reachable state. -/
theorem countRunning_le_of_reachable {k n : Nat} {s : List ReqStatus}
    (h : BatchReachable k n s) : countRunning s ≤ k := by
  induction h with
  | refl => simp [countRunning_replicate_waiting]
  | tail _ hstep ih => exact countRunning_le_of_step hstep ih

/-- With a limit at least the batch size, the scheduler can bring the first
`j` requests of the batch into the running state simultaneously. -/
theorem reach_running_block (k n : Nat) (hnk : n ≤ k) :
    ∀ j, j ≤ n →
      BatchReachable k n
        (List.replicate j ReqStatus.running ++
          List.replicate (n - j) ReqStatus.waiting)
  | 0, _ => by
    simpa [BatchReachable] using Relation.ReflTransGen.refl
  | j + 1, hj => by
    have hjn : j < n := hj
    have prev := reach_running_block k n hnk j (Nat.le_of_lt hjn)
    have hij : j < (List.replicate j ReqStatus.running ++
        List.replicate (n - j) ReqStatus.waiting).length := by
      simp
      omega
    have hw : (List.replicate j ReqStatus.running ++
        List.replicate (n - j) ReqStatus.waiting)[j] = ReqStatus.waiting := by
      rw [List.getElem_append_right (by simp)]
      exact List.getElem_replicate _ _
    have hcnt : countRunning (List.replicate j ReqStatus.running ++
        List.replicate (n - j) ReqStatus.waiting) < k := by
      have : countRunning (List.replicate j ReqStatus.running ++
          List.replicate (n - j) ReqStatus.waiting) = j := by
        simp [countRunning, List.countP_append, List.countP_replicate, isRunning]
      omega
    have hset : (List.replicate j ReqStatus.running ++
          List.replicate (n - j) ReqStatus.waiting).set j ReqStatus.running =
        List.replicate (j + 1) ReqStatus.running ++
          List.replicate (n - (j + 1)) ReqStatus.waiting := by
      have h1 : n - j = (n - (j + 1)) + 1 := by omega
      rw [h1, List.replicate_succ, List.set_append]
      simp [List.replicate_succ']
    exact Relation.ReflTransGen.tail prev
      (hset ▸ BatchStep.start _ j hij hw hcnt)

/-! ## Claim theorems -/

/-- C1: for every batch of N query requests, `runBatch` (the model of
`executeQueriesAsync`) returns exactly N ExecutionResults, position-aligned so
that the result at index i is the outcome of request i regardless of
completion order, and an error-variant result for one request neither cancels
nor alters the result of any sibling request. -/
theorem runBatch_aligned_independent (exec : QueryRequest → ExecutionResult)
    (k : Int) (reqs : List QueryRequest) (hk : 0 < k) :
    ∃ rs, runBatch exec k reqs = .ok rs ∧
      rs.length = reqs.length ∧
      (∀ i : Nat, rs[i]? = (reqs[i]?).map exec) ∧
      (∀ j : Nat, ∀ r : QueryRequest, ∀ i : Nat, i ≠ j →
        ∃ rs2, runBatch exec k (reqs.set j r) = .ok rs2 ∧ rs2[i]? = rs[i]?) := by
  have hk2 : ¬ k ≤ 0 := by omega
  refine ⟨reqs.map exec, by simp [runBatch, hk2], by simp, ?_, ?_⟩
  · intro i
    simp [List.getElem?_map]
  · intro j r i hij
    refine ⟨(reqs.set j r).map exec, by simp [runBatch, hk2], ?_⟩
    rw [List.getElem?_map, List.getElem?_map, List.getElem?_set_ne (Ne.symm hij)]

theorem runBatch_aligned_independent_witness :
    (0 : Int) < 3 ∧
    ∃ rs, runBatch (fun _ => ExecutionResult.success "ok") 3
        [⟨"q1", false, {}⟩, ⟨"q2", true, {}⟩] = .ok rs ∧
      rs.length = [(⟨"q1", false, {}⟩ : QueryRequest), ⟨"q2", true, {}⟩].length := by
  refine ⟨by decide, ?_⟩
  obtain ⟨rs, h1, h2, -, -⟩ :=
    runBatch_aligned_independent (fun _ => ExecutionResult.success "ok") 3
      [⟨"q1", false, {}⟩, ⟨"q2", true, {}⟩] (by decide)
  exact ⟨rs, h1, h2⟩

/-- C2 (counterexample): with two exact patterns both contained in the raw
text, the output is classified with the category of the first registered
matching pattern, not with the category of the other contained needle — so
the claim's "classified with that needle's category" fails as literally
universally quantified over the contained needle. -/
theorem detect_exact_needle_counterexample :
    containsSub "bb".data "aabb".data = true ∧
    detect [⟨.exact, "aa".data, .fail, 0, "A"⟩, ⟨.exact, "bb".data, .fail, 0, "B"⟩]
        ⟨"aabb", true, ""⟩ ≠ ExecutionResult.err "aabb" "B" ∧
    detect [⟨.exact, "aa".data, .fail, 0, "A"⟩, ⟨.exact, "bb".data, .fail, 0, "B"⟩]
        ⟨"aabb", true, ""⟩ = ExecutionResult.err "aabb" "A" := by
  refine ⟨by decide, by decide, by decide⟩

/-- C2 (amended): for every pattern set and RawOutput whose text contains the
needle of an exact ErrorPattern, `detect` classifies the output as an error —
never a success — regardless of the backend's success indicator, with the
category of the first matching registered pattern; and the embedded-error
scenario (stdout an error JSON object, exit code 0, exact pattern for
"cannot compose") yields that pattern's error result, never a success. -/
theorem detect_exact_contained_error (ps : List ErrorPattern) (raw : RawOutput)
    (p : ErrorPattern) (hp : p ∈ ps) (hk : p.kind = .exact)
    (hc : containsSub p.needle raw.text.data = true) :
    (∃ q, q ∈ ps ∧ patMatches q raw.text.data = true ∧
      detect ps raw = .err raw.text q.category) ∧
    detect [⟨.exact, "cannot compose".data, .fail, 0, "auth_error"⟩]
        ⟨"\x7b\"error\":\"cannot compose signing credentials\"\x7d", true, ""⟩ =
      .err "\x7b\"error\":\"cannot compose signing credentials\"\x7d" "auth_error" := by
  refine ⟨?_, by decide⟩
  have hpm : patMatches p raw.text.data = true := by
    unfold patMatches
    rw [hk]
    exact hc
  have hmem : p ∈ tiered ps := exact_mem_tiered hp hk
  unfold detect
  cases hfm : firstMatch (tiered ps) raw.text.data with
  | none =>
    exfalso
    unfold firstMatch at hfm
    exact (List.find?_eq_none.mp hfm p hmem) hpm
  | some q =>
    unfold firstMatch at hfm
    have hq := List.find?_some hfm
    exact ⟨q, mem_of_mem_tiered (List.mem_of_find?_eq_some hfm), hq, rfl⟩

theorem detect_exact_contained_error_witness :
    containsSub "bb".data "xbbx".data = true ∧
    ∃ q, q ∈ [(⟨.exact, "bb".data, .fail, 0, "B"⟩ : ErrorPattern)] ∧
      patMatches q "xbbx".data = true ∧
      detect [⟨.exact, "bb".data, .fail, 0, "B"⟩] ⟨"xbbx", false, ""⟩ =
        .err "xbbx" q.category := by
  refine ⟨by decide, ?_⟩
  exact (detect_exact_contained_error
    [⟨.exact, "bb".data, .fail, 0, "B"⟩] ⟨"xbbx", false, ""⟩
    ⟨.exact, "bb".data, .fail, 0, "B"⟩ (by decide) (by decide) (by decide)).1

/-- C3: `detect` evaluates the pattern set in the fixed precedence exact →
regex → fuzzy with registration order kept inside each tier, and the first
matching pattern in that order determines the error category (evaluation
stops at the first match); moreover fuzzy matching is a similarity-threshold
test against the needle and not a substring check (a text containing the
needle as a substring can still fail the fuzzy test). -/
theorem detect_precedence_first_match (ps : List ErrorPattern)
    (raw : RawOutput) (pre post : List ErrorPattern) (p : ErrorPattern)
    (ht : tiered ps = pre ++ p :: post)
    (hm : patMatches p raw.text.data = true)
    (hpre : ∀ q ∈ pre, patMatches q raw.text.data = false) :
    detect ps raw = .err raw.text p.category ∧
    containsSub "ab".data "xxxxabxx".data = true ∧
    patMatches ⟨.fuzzy, "ab".data, .fail, 80, "fz"⟩ "xxxxabxx".data = false := by
  refine ⟨?_, by decide, by decide⟩
  unfold detect firstMatch
  rw [ht, find?_of_first (fun q => patMatches q raw.text.data) hm hpre]

theorem detect_precedence_first_match_witness :
    patMatches ⟨.exact, "bb".data, .fail, 0, "B"⟩ "xbbx".data = true ∧
    detect [⟨.fuzzy, "zz".data, .fail, 95, "FZ"⟩,
        ⟨.exact, "aa".data, .fail, 0, "A"⟩,
        ⟨.exact, "bb".data, .fail, 0, "B"⟩] ⟨"xbbx", true, ""⟩ =
      .err "xbbx" "B" := by
  refine ⟨by decide, ?_⟩
  exact (detect_precedence_first_match
    [⟨.fuzzy, "zz".data, .fail, 95, "FZ"⟩,
     ⟨.exact, "aa".data, .fail, 0, "A"⟩,
     ⟨.exact, "bb".data, .fail, 0, "B"⟩] ⟨"xbbx", true, ""⟩
    [⟨.exact, "aa".data, .fail, 0, "A"⟩]
    [⟨.fuzzy, "zz".data, .fail, 95, "FZ"⟩]
    ⟨.exact, "bb".data, .fail, 0, "B"⟩
    (by decide) (by decide) (by decide)).1

/-- C5: every classification yields exactly one of the two ExecutionResult
variants and never null/absent — `detect` is total, even on empty output;
when no pattern matches and the backend reported failure the result is an
error with the "unclassified" category carrying the diagnostic text verbatim,
and when no pattern matches and the backend reported success the result is
the success variant. -/
theorem detect_total_two_variants (ps : List ErrorPattern) (raw : RawOutput) :
    ((∃ s, detect ps raw = .success s) ∨ (∃ m c, detect ps raw = .err m c)) ∧
    ((∀ p ∈ ps, patMatches p raw.text.data = false) → raw.exitOk = false →
      detect ps raw = .err raw.diag "unclassified") ∧
    ((∀ p ∈ ps, patMatches p raw.text.data = false) → raw.exitOk = true →
      detect ps raw = .success raw.text) := by
  refine ⟨?_, ?_, ?_⟩
  · unfold detect
    cases firstMatch (tiered ps) raw.text.data with
    | some p => exact Or.inr ⟨raw.text, p.category, rfl⟩
    | none =>
      cases hex : raw.exitOk with
      | true => exact Or.inl ⟨raw.text, by simp⟩
      | false => exact Or.inr ⟨raw.diag, "unclassified", by simp⟩
  · intro hnm hex
    unfold detect
    rw [firstMatch_eq_none hnm, hex]
    simp
  · intro hnm hex
    unfold detect
    rw [firstMatch_eq_none hnm, hex]
    simp

theorem detect_total_two_variants_witness :
    (∀ p ∈ ([] : List ErrorPattern), patMatches p "".data = false) ∧
    detect [] ⟨"", false, "boom"⟩ = .err "boom" "unclassified" := by
  refine ⟨by simp, ?_⟩
  exact (detect_total_two_variants [] ⟨"", false, "boom"⟩).2.1 (by simp) rfl

/-- C4: for every base ExecutionConfig and valid partial override, `resolve`
returns a configuration equal to the base field-for-field except exactly at
the keys present in the override; resolving the empty override reproduces the
base, and a call executed with per-call overrides hands back the session
configuration unchanged, so subsequent calls keep using the original
constructor defaults. -/
theorem resolve_merges_fieldwise (base : ExecutionConfig) (ov : Overrides)
    (hfmt : ∀ s, ov.output = some s → (parseFormat s).isSome = true)
    (hto : ∀ t, ov.apiTimeout = some t → 0 ≤ t)
    (hcl : ∀ c, ov.executionConcurrencyLimit = some c → 0 ≤ c)
    (ps : List ErrorPattern) (backend : ExecutionConfig → String → RawOutput)
    (q : String) :
    (∃ c, resolve base ov = .ok c ∧
      c.mode = ov.mode.getD base.mode ∧
      c.location = ov.location.getD base.location ∧
      c.outputFormat = (ov.output.bind parseFormat).getD base.outputFormat ∧
      c.sep = ov.sep.getD base.sep ∧
      c.header = ov.header.getD base.header ∧
      c.auth = overrideOpt ov.auth base.auth ∧
      c.customRegistry = overrideOpt ov.customRegistry base.customRegistry ∧
      c.maxResults = ov.maxResults.getD base.maxResults ∧
      c.pageLimit = ov.pageLimit.getD base.pageLimit ∧
      c.maxDepth = ov.maxDepth.getD base.maxDepth ∧
      c.apiTimeout = ov.apiTimeout.getD base.apiTimeout ∧
      c.proxy = overrideOpt ov.proxy base.proxy ∧
      c.executionConcurrencyLimit =
        ov.executionConcurrencyLimit.getD base.executionConcurrencyLimit ∧
      c.httpDebug = ov.httpDebug.getD base.httpDebug ∧
      c.backendStorageMode =
        overrideOpt ov.backendStorageMode base.backendStorageMode ∧
      c.backendFileStorageLocation =
        overrideOpt ov.backendFileStorageLocation base.backendFileStorageLocation) ∧
    resolve base emptyOverrides = .ok base ∧
    (executeCall base ps backend q ov).2 = base := by
  have h1 : ov.apiTimeout.any (fun t => decide (t < 0)) = false := by
    cases hx : ov.apiTimeout with
    | none => rfl
    | some t =>
      have := hto t hx
      simp only [Option.any_some, decide_eq_false_iff_not]
      omega
  have h2 : ov.executionConcurrencyLimit.any (fun c => decide (c < 0)) = false := by
    cases hx : ov.executionConcurrencyLimit with
    | none => rfl
    | some c =>
      have := hcl c hx
      simp only [Option.any_some, decide_eq_false_iff_not]
      omega
  refine ⟨?_, ?_, ?_⟩
  · cases hout : ov.output with
    | none =>
      refine ⟨mergedConfig base ov base.outputFormat, ?_, rfl, rfl, ?_, rfl,
        rfl, rfl, rfl, rfl, rfl, rfl, rfl, rfl, rfl, rfl, rfl, rfl⟩
      · have hrf : resolvedFormat base ov = .ok base.outputFormat := by
          unfold resolvedFormat
          rw [hout]
        unfold resolve
        rw [hrf]
        simp [h1, h2]
      · rfl
    | some s =>
      obtain ⟨f, hf⟩ := Option.isSome_iff_exists.mp (hfmt s hout)
      refine ⟨mergedConfig base ov f, ?_, rfl, rfl, ?_, rfl, rfl, rfl, rfl,
        rfl, rfl, rfl, rfl, rfl, rfl, rfl, rfl, rfl⟩
      · have hrf : resolvedFormat base ov = .ok f := by
          unfold resolvedFormat
          rw [hout]
          simp [hf]
        unfold resolve
        rw [hrf]
        simp [h1, h2]
      · simp [hf, mergedConfig]
  · rfl
  · unfold executeCall
    cases resolve base ov <;> rfl

theorem resolve_merges_fieldwise_witness :
    (∀ s, ({ output := some "csv", sep := some "|" } : Overrides).output = some s →
      (parseFormat s).isSome = true) ∧
    ∃ c, resolve
        ⟨.localProc, "stackql", .dict, ",", true, none, none, 0, 0, 0, 45,
          none, 1, false, none, none⟩
        { output := some "csv", sep := some "|" } = .ok c ∧
      c.outputFormat = OutputFormat.csv ∧ c.sep = "|" ∧ c.apiTimeout = 45 := by
  refine ⟨?_, ?_⟩
  · intro s hs
    injection hs with h
    rw [← h]
    decide
  · obtain ⟨c, hres, -, -, hfm, hsep, -, -, -, -, -, -, hti, -, -, -, -, -⟩ :=
      (resolve_merges_fieldwise
        ⟨.localProc, "stackql", .dict, ",", true, none, none, 0, 0, 0, 45,
          none, 1, false, none, none⟩
        { output := some "csv", sep := some "|" }
        (fun s hs => by injection hs with h; rw [← h]; decide)
        (fun t ht => by simp at ht)
        (fun cc hc => by simp at hc)
        [] (fun _ _ => ⟨"", true, ""⟩) "q").1
    exact ⟨c, hres, by rw [hfm]; decide, by rw [hsep]; rfl, by rw [hti]; rfl⟩

/-- C6: an override value outside its declared domain — an unknown output
format, a negative timeout, or a negative concurrency limit — makes `resolve`
fail with ConfigError before any backend dispatch; and `runBatch` called with
a non-positive concurrency limit fails with ConfigError before any request of
the batch is dispatched (its outcome does not depend on the per-request
executor at all). -/
theorem invalid_override_config_error (base : ExecutionConfig) (ov : Overrides)
    (k : Int) (reqs : List QueryRequest)
    (exec exec2 : QueryRequest → ExecutionResult) :
    (∀ s, ov.output = some s → parseFormat s = none →
      ∃ e, resolve base ov = .error e) ∧
    (∀ t, ov.apiTimeout = some t → t < 0 → ∃ e, resolve base ov = .error e) ∧
    (∀ c, ov.executionConcurrencyLimit = some c → c < 0 →
      ∃ e, resolve base ov = .error e) ∧
    (k ≤ 0 →
      runBatch exec k reqs =
        .error ⟨"execution concurrency limit must be positive"⟩ ∧
      runBatch exec k reqs = runBatch exec2 k reqs) := by
  refine ⟨?_, ?_, ?_, ?_⟩
  · intro s hs hp
    have hrf : resolvedFormat base ov =
        .error ⟨"unknown output format: " ++ s⟩ := by
      unfold resolvedFormat
      rw [hs]
      simp [hp]
    unfold resolve
    rw [hrf]
    exact ⟨_, rfl⟩
  · intro t ht hlt
    unfold resolve
    cases resolvedFormat base ov with
    | error e => exact ⟨e, rfl⟩
    | ok fmt =>
      have hcond : ov.apiTimeout.any (fun t => decide (t < 0)) = true := by
        rw [ht]
        simpa using hlt
      exact ⟨⟨"negative timeout"⟩, by simp [hcond]⟩
  · intro c hc hlt
    unfold resolve
    cases resolvedFormat base ov with
    | error e => exact ⟨e, rfl⟩
    | ok fmt =>
      by_cases h139 : ov.apiTimeout.any (fun t => decide (t < 0)) = true
      · exact ⟨⟨"negative timeout"⟩, by simp [h139]⟩
      · have hcond : ov.executionConcurrencyLimit.any
            (fun c => decide (c < 0)) = true := by
          rw [hc]
          simpa using hlt
        exact ⟨⟨"negative concurrency limit"⟩, by simp [h139, hcond]⟩
  · intro hk
    constructor <;> simp [runBatch, hk]

theorem invalid_override_config_error_witness :
    (({ output := some "xml" } : Overrides).output = some "xml") ∧
    (∃ e, resolve
      ⟨.localProc, "stackql", .dict, ",", true, none, none, 0, 0, 0, 45,
        none, 1, false, none, none⟩
      { output := some "xml" } = .error e) ∧
    runBatch (fun _ => ExecutionResult.success "ok") 0 [⟨"q", false, {}⟩] =
      .error ⟨"execution concurrency limit must be positive"⟩ := by
  refine ⟨rfl, ?_, ?_⟩
  · exact (invalid_override_config_error
      ⟨.localProc, "stackql", .dict, ",", true, none, none, 0, 0, 0, 45,
        none, 1, false, none, none⟩
      { output := some "xml" } 0 [] (fun _ => .success "ok")
      (fun _ => .success "ok")).1 "xml" rfl rfl
  · exact ((invalid_override_config_error
      ⟨.localProc, "stackql", .dict, ",", true, none, none, 0, 0, 0, 45,
        none, 1, false, none, none⟩
      { output := some "xml" } 0 [⟨"q", false, {}⟩]
      (fun _ => ExecutionResult.success "ok")
      (fun _ => ExecutionResult.success "ok")).2.2.2 (by decide)).1

/-- C7: during any batch execution with concurrency limit k, no reachable
scheduler state has more than k requests running simultaneously; with k = 1
the batch is serialized (never two requests running at once); and with
k ≥ N the scheduler can bring all N requests into simultaneous execution. -/
theorem batch_concurrency_bounded (k n : Nat) :
    (∀ s, BatchReachable k n s → countRunning s ≤ k) ∧
    (∀ s, BatchReachable 1 n s → countRunning s ≤ 1) ∧
    (n ≤ k → BatchReachable k n (List.replicate n ReqStatus.running)) := by
  refine ⟨fun s h => countRunning_le_of_reachable h,
    fun s h => countRunning_le_of_reachable h, fun hnk => ?_⟩
  have h := reach_running_block k n hnk n (Nat.le_refl n)
  simpa using h

theorem batch_concurrency_bounded_witness :
    (2 : Nat) ≤ 2 ∧
    BatchReachable 2 2 (List.replicate 2 ReqStatus.running) ∧
    countRunning (List.replicate 2 ReqStatus.running) ≤ 2 := by
  have hreach := (batch_concurrency_bounded 2 2).2.2 (by decide)
  exact ⟨by decide, hreach, (batch_concurrency_bounded 2 2).1 _ hreach⟩

/-- C8: when the local backend's time limit elapses before the child process
exits, `runLocal` fails with the timeout error carrying the partial stdout
captured so far and terminates the child; with the limit set to 0 every run —
also one that would normally succeed — deterministically yields the timeout
error and never a success; and one request's timeout never alters a sibling
request's outcome in a batch of local runs. -/
theorem runLocal_timeout_semantics (p : ChildProc) (t : Nat)
    (procs : List (ChildProc × Nat)) (i j : Nat) (q : ChildProc × Nat)
    (ht : t ≤ p.duration) (hij : i ≠ j) :
    runLocal p t = .error (.timeoutExpired p.partOut true) ∧
    runLocal p 0 = .error (.timeoutExpired p.partOut true) ∧
    (∀ raw, runLocal p 0 ≠ .ok raw) ∧
    (runLocalBatch (procs.set j q))[i]? = (runLocalBatch procs)[i]? := by
  refine ⟨?_, ?_, ?_, ?_⟩
  · unfold runLocal
    rw [if_neg (by omega)]
  · unfold runLocal
    rw [if_neg (by omega)]
  · intro raw
    unfold runLocal
    rw [if_neg (by omega)]
    simp
  · unfold runLocalBatch
    rw [List.getElem?_map, List.getElem?_map,
      List.getElem?_set_ne (Ne.symm hij)]

theorem runLocal_timeout_semantics_witness :
    (5 : Nat) ≤ 7 ∧ (0 : Nat) ≠ 1 ∧
    runLocal ⟨7, "full", "part", "", true⟩ 5 =
      .error (.timeoutExpired "part" true) := by
  refine ⟨by decide, by decide, ?_⟩
  exact (runLocal_timeout_semantics ⟨7, "full", "part", "", true⟩ 5 [] 0 1
    (⟨0, "", "", "", true⟩, 0) (by decide) (by decide)).1

/-- C9: for every row set, encoding it to CSV with a header row via the
output normalizer and then re-parsing the CSV reproduces the original rows
with the original column names, with every scalar value reproduced as its
string form (round-trip up to type-stringification); the only conditions are
on the configured separator character itself, which must differ from the
quote and newline characters the CSV syntax uses. -/
theorem csv_round_trip (sep : Char) (header : List Chars)
    (rows : List (List Scalar)) (hq : sep ≠ '"') (hn : sep ≠ '\n') :
    csvDecode sep (csvEncode sep header rows) =
      (header, rows.map (fun r => r.map Scalar.render)) := by
  unfold csvEncode csvDecode
  rw [csvScan_lines sep hq hn (rows.map (fun r => r.map Scalar.render))
    header []]
  simp

theorem csv_round_trip_witness :
    (',' : Char) ≠ '"' ∧ (',' : Char) ≠ '\n' ∧ ',' ∈ "x,y".data ∧
    csvDecode ',' (csvEncode ',' ["p".data, "v".data]
        [[Scalar.strV "x,y", Scalar.intV 1]]) =
      (["p".data, "v".data],
        [[Scalar.strV "x,y", Scalar.intV 1]].map (fun r => r.map Scalar.render)) := by
  refine ⟨by decide, by decide, by decide, ?_⟩
  exact csv_round_trip ',' ["p".data, "v".data]
    [[Scalar.strV "x,y", Scalar.intV 1]] (by decide) (by decide)

/-- C10: supplying an auth configuration to the constructor as a dict or as
the equivalent stringified JSON object produces the identical local-backend
argument vector — command verb `exec` first, then the query text, then
flag/value pairs ending with `--output <format>` — so the two input encodings
are observationally equivalent. -/
theorem auth_dict_string_equivalent (b : AuthBlock) (q fmt : String)
    (flags : List (String × String)) :
    buildLocalArgs q (some (.asDict b)) flags fmt =
      buildLocalArgs q (some (.asStr (serializeAuthBlock b))) flags fmt ∧
    (∃ mid, buildLocalArgs q (some (.asDict b)) flags fmt =
      "exec" :: q :: (mid ++ ["--output", fmt])) ∧
    buildLocalArgs "q" (some (.asStr "A")) [] "json" =
      ["exec", "q", "--auth", "A", "--output", "json"] := by
  refine ⟨?_, ?_, ?_⟩
  · unfold buildLocalArgs authArgText
    rfl
  · refine ⟨["--auth", serializeAuthBlock b] ++
      (flags.map (fun kv => ["--" ++ kv.1, kv.2])).flatten, ?_⟩
    unfold buildLocalArgs
    simp [List.append_assoc, authArgText]
  · rfl

end PyStackQL
